import Mathlib

/-!
Verification of the durable task scheduler ("Alarms") of
`packages/alarms/src/index.ts` (the variant with the `identifier`
migration, which is the one the specification describes).

The embedding models the `_actor_alarms` table as a list of rows, the
host wake primitive (`ctx.storage.setAlarm`) as an `Option Nat` holding
the armed deadline in milliseconds, and the two external collaborators
parametrically:
  * the cron evaluator (`parseCronExpression` / `getNextDate` from the
    `cron-schedule` package) as a pair of functions `cronOk`
    (does the expression parse) and `cronNextMs` (next occurrence in
    milliseconds after a given instant);
  * the owning actor (`this.parent`) as a map from member names to an
    optional callback behaviour (`none` models "not a function").

Clock values are passed in as `nowMs` (the value of `Date.now()`), and
the code's `Math.floor(Date.now() / 1000)` becomes `nowMs / 1000` on
naturals.  Failures (`throw`) are modelled with `Except String`; the
operations that mutate storage before a possible throw thread the state
explicitly, so "no mutation on error" is a provable statement.
-/

namespace ActorAlarms

/-- Kind tag stored in the `type` column of `_actor_alarms`
(`CHECK(type IN ('scheduled', 'delayed', 'cron'))`). -/
inductive SchedType where
  | scheduled
  | delayed
  | cron
deriving DecidableEq, Repr

/-- One row of the `_actor_alarms` table (the persisted `Schedule`
record): `id`, `callback`, `payload` (serialized), `type`, `time`
(unix seconds), `delayInSeconds` (only for `delayed`), `cron`
(only for `cron`), `created_at`, and the migrated `identifier`. -/
structure ScheduleRow where
  id : String
  callback : String
  payload : String
  type : SchedType
  time : Nat
  delayInSeconds : Option Nat
  cron : Option String
  createdAt : Nat
  identifier : String
deriving DecidableEq, Repr

/-- Observable state of one scheduler instance: the table rows plus the
single host wake deadline (`ctx.storage.setAlarm`), in milliseconds. -/
structure AlarmState where
  rows : List ScheduleRow
  alarmMs : Option Nat
deriving DecidableEq, Repr

/-- Behaviour of a resolved actor member when invoked as a callback:
it either returns normally or throws. -/
inductive CbOutcome where
  | ok
  | throws (msg : String)
deriving DecidableEq, Repr

/-- The owning actor (`this.parent`), seen through dynamic member
lookup: `none` models `typeof this.parent[name] !== "function"`. -/
def Parent : Type := String → Option CbOutcome

/-- External cron evaluator (`cron-schedule`): `cronOk e` is whether
`parseCronExpression e` succeeds (a property of the expression alone),
and `cronNextMs e t` is `interval.getNextDate()` evaluated at instant
`t` (milliseconds), meaningful only when `cronOk e` holds. -/
structure Ext where
  cronOk : String → Bool
  cronNextMs : String → Nat → Nat

/-- Embedding of `getNextCronTime`: `parseCronExpression(cron)` throws
on an invalid expression, otherwise `interval.getNextDate()` yields the
next occurrence (returned here in milliseconds). -/
def getNextCronTime (ext : Ext) (cron : String) (nowMs : Nat) : Except String Nat :=
  if ext.cronOk cron then Except.ok (ext.cronNextMs cron nowMs)
  else Except.error ("Invalid cron expression: " ++ cron)

/-- SQLite `INSERT OR REPLACE` keyed on the primary key `id`: any row
with the same id is removed and the fresh row is inserted. -/
def upsert (row : ScheduleRow) (rows : List ScheduleRow) : List ScheduleRow :=
  rows.filter (fun r => r.id ≠ row.id) ++ [row]

/-- Minimum of a list of naturals, `none` on the empty list (the
embedding of `ORDER BY time ASC LIMIT 1`). -/
def listMinNat : List Nat → Option Nat
  | [] => none
  | t :: ts =>
    match listMinNat ts with
    | none => some t
    | some m => some (Nat.min t m)

/-- Embedding of the query inside `_scheduleNextAlarm`:
`SELECT time FROM _actor_alarms WHERE time > now ORDER BY time ASC LIMIT 1`. -/
def queryNextDeadline (now : Nat) (rows : List ScheduleRow) : Option Nat :=
  listMinNat ((rows.filter (fun r => now < r.time)).map (fun r => r.time))

/-- Embedding of `Alarms._scheduleNextAlarm`: query the earliest row
strictly in the future; if one exists, `setAlarm(time * 1000)`;
otherwise return without touching the armed deadline. -/
def scheduleNextAlarm (now : Nat) (s : AlarmState) : AlarmState :=
  match queryNextDeadline now s.rows with
  | some t => { s with alarmMs := some (t * 1000) }
  | none => s

/-- Embedding of `Alarms.cancelSchedule`: `DELETE ... WHERE id = ?`,
then `_scheduleNextAlarm()`, then `return true` (unconditionally). -/
def cancelSchedule (nowMs : Nat) (id : String) (s : AlarmState) : AlarmState × Bool :=
  let s1 : AlarmState := { s with rows := s.rows.filter (fun r => r.id ≠ id) }
  (scheduleNextAlarm (nowMs / 1000) s1, true)

/-- Shape of the `when` argument of `schedule`, after JavaScript's
dynamic tests: `when instanceof Date` (holding `getTime()` in ms),
`typeof when === "number"` (seconds of delay), `typeof when ===
"string"` (cron expression), or anything else. -/
inductive When where
  | date (ms : Nat)
  | num (secs : Nat)
  | str (expr : String)
  | other
deriving DecidableEq, Repr

/-- The `callback` argument of `schedule` as JavaScript sees it:
a string, or some non-string value. -/
inductive CallbackArg where
  | str (name : String)
  | nonString
deriving DecidableEq, Repr

/-- Embedding of `Alarms.schedule`.  The state is threaded explicitly:
an `Except.error` result is produced exactly on the code paths that
`throw` before any SQL statement runs, and those paths return the input
state unchanged.  Success paths upsert the new row, run
`_scheduleNextAlarm`, and return the created record. -/
def schedule (ext : Ext) (parent : Parent) (nowMs : Nat) (newId : String)
    (actorName : Option String) (when : When) (callback : CallbackArg)
    (payload : String) (s : AlarmState) : AlarmState × Except String ScheduleRow :=
  match callback with
  | CallbackArg.nonString => (s, Except.error ("Callback must be a string"))
  | CallbackArg.str cb =>
    match parent cb with
    | none => (s, Except.error ("this.parent." ++ cb ++ " is not a function"))
    | some _ =>
      match when with
      | When.date ms =>
        let timestamp := ms / 1000
        let row : ScheduleRow :=
          { id := newId, callback := cb, payload := payload,
            type := SchedType.scheduled, time := timestamp,
            delayInSeconds := none, cron := none,
            createdAt := nowMs / 1000, identifier := actorName.getD ("default") }
        let s1 : AlarmState := { s with rows := upsert row s.rows }
        (scheduleNextAlarm (nowMs / 1000) s1, Except.ok row)
      | When.num w =>
        let timestamp := (nowMs + w * 1000) / 1000
        let row : ScheduleRow :=
          { id := newId, callback := cb, payload := payload,
            type := SchedType.delayed, time := timestamp,
            delayInSeconds := some w, cron := none,
            createdAt := nowMs / 1000, identifier := actorName.getD ("default") }
        let s1 : AlarmState := { s with rows := upsert row s.rows }
        (scheduleNextAlarm (nowMs / 1000) s1, Except.ok row)
      | When.str expr =>
        match getNextCronTime ext expr nowMs with
        | Except.error e => (s, Except.error e)
        | Except.ok nextMs =>
          let timestamp := nextMs / 1000
          let row : ScheduleRow :=
            { id := newId, callback := cb, payload := payload,
              type := SchedType.cron, time := timestamp,
              delayInSeconds := none, cron := some expr,
              createdAt := nowMs / 1000, identifier := actorName.getD ("default") }
          let s1 : AlarmState := { s with rows := upsert row s.rows }
          (scheduleNextAlarm (nowMs / 1000) s1, Except.ok row)
      | When.other => (s, Except.error ("Invalid schedule type"))

/-- JavaScript truthiness of an array value: an array object is truthy
even when it is empty, so `!result` on the array returned by `sql` is
always `false`. -/
def jsArrayFalsy (xs : List ScheduleRow) : Bool :=
  match xs with
  | _ => false

/-- Embedding of `Alarms.getSchedule`: run
`SELECT * FROM _actor_alarms WHERE id = ?`, then `if (!result) return
undefined` (dead branch: `result` is an array), then build the record
from `result[0]`; when no row matched, `result[0]` is `undefined` and
reading `result[0].payload` throws a `TypeError`. -/
def getSchedule (s : AlarmState) (id : String) : Except String (Option ScheduleRow) :=
  let result := s.rows.filter (fun r => r.id = id)
  if jsArrayFalsy result then Except.ok none
  else
    match result with
    | r :: _ => Except.ok (some r)
    | [] => Except.error ("TypeError: Cannot read properties of undefined (reading payload)")

/-- One iteration body of the `for (const row of result)` loop in
`Alarms.alarm`, applied to a due row `d` against the current table:
a `cron` row gets `UPDATE _actor_alarms SET time = next WHERE id = d.id`
(where `next` comes from `getNextCronTime`, which can throw), any other
row gets `DELETE FROM _actor_alarms WHERE id = d.id`. -/
def consumeRow (ext : Ext) (nowMs : Nat) (d : ScheduleRow)
    (rows : List ScheduleRow) : Except String (List ScheduleRow) :=
  match d.type with
  | SchedType.cron =>
    match d.cron with
    | none => Except.error ("Invalid cron expression: null")
    | some expr =>
      match getNextCronTime ext expr nowMs with
      | Except.error e => Except.error e
      | Except.ok nextMs =>
        let nextTimestamp := nextMs / 1000
        Except.ok (rows.map (fun r => if r.id = d.id then { r with time := nextTimestamp } else r))
  | _ => Except.ok (rows.filter (fun r => r.id ≠ d.id))

/-- The dispatch loop of `Alarms.alarm` over the snapshot of due rows.
For each due row: resolve the callback on the parent; if unresolved,
log and `continue` (the row is not consumed); otherwise `setName` and
the callback invocation each run inside their own `try/catch`, so the
callback's outcome (normal return or throw) has no effect on the state,
and the row is consumed per its kind by `consumeRow`, whose own error
(cron re-parse failure) aborts the loop. -/
def alarmLoop (ext : Ext) (parent : Parent) (nowMs : Nat) :
    List ScheduleRow → List ScheduleRow → List ScheduleRow × Except String Unit
  | [], rows => (rows, Except.ok ())
  | d :: rest, rows =>
    match parent d.callback with
    | none => alarmLoop ext parent nowMs rest rows
    | some _outcome =>
      match consumeRow ext nowMs d rows with
      | Except.error e => (rows, Except.error e)
      | Except.ok rows1 => alarmLoop ext parent nowMs rest rows1

/-- Embedding of `Alarms.alarm`: take `now = Math.floor(Date.now() /
1000)`, snapshot all rows with `time <= now`, run the dispatch loop,
and finally `_scheduleNextAlarm()`.  An error escaping the loop rejects
the wake without rearming, leaving the partially mutated table. -/
def alarm (ext : Ext) (parent : Parent) (nowMs : Nat) (s : AlarmState) :
    AlarmState × Except String Unit :=
  let now := nowMs / 1000
  let due := s.rows.filter (fun r => r.time ≤ now)
  match alarmLoop ext parent nowMs due s.rows with
  | (rows1, Except.ok ()) => (scheduleNextAlarm now { s with rows := rows1 }, Except.ok ())
  | (rows1, Except.error e) => ({ s with rows := rows1 }, Except.error e)

/-- Observable schema state for the bootstrap in the `Alarms`
constructor: whether the `_actor_alarms` table exists, and whether it
has the `identifier` column (carrying that column's declared default
value when present). -/
structure SchemaState where
  tableExists : Bool
  identifierColumn : Option String
deriving DecidableEq, Repr

/-- Embedding of
`ALTER TABLE _actor_alarms ADD COLUMN identifier TEXT DEFAULT 'default'`:
the statement can fail (modelled by the `alterFails` outcome); on
success the column exists with default sentinel `'default'`. -/
def alterAddIdentifier (alterFails : Bool) (sch : SchemaState) : Except String SchemaState :=
  if alterFails then Except.error ("Failed to add identifier column")
  else Except.ok { sch with identifierColumn := some ("default") }

/-- Embedding of the schema bootstrap in the `Alarms` constructor:
`CREATE TABLE IF NOT EXISTS _actor_alarms (...)` (without the
`identifier` column), then probe `SELECT identifier FROM _actor_alarms
LIMIT 1` (which throws exactly when the column is absent), and in the
catch run the `ALTER TABLE` inside its own `try/catch` whose handler
only logs, so an `ALTER` failure is swallowed. -/
def ensureSchema (alterFails : Bool) (sch : SchemaState) : Except String SchemaState :=
  let sch1 := if sch.tableExists then sch else { tableExists := true, identifierColumn := none }
  if sch1.identifierColumn.isSome then Except.ok sch1
  else
    match alterAddIdentifier alterFails sch1 with
    | Except.ok sch2 => Except.ok sch2
    | Except.error _e => Except.ok sch1

/-! Normal form of one wake dispatch.  The loop in `Alarms.alarm`
applies, for each due row `d`, an order-preserving per-row
transformation of the table keyed on `d.id`; composing those
transformations over the due snapshot and collapsing them under
uniqueness of ids yields a single `List.filterMap` of a per-row rule
(`wakeStep`). -/

/-- Per-row effect on the table of processing one due row `d`:
identity when `d`'s callback does not resolve (the loop `continue`s),
otherwise the row with `d`'s id is updated (cron) or removed
(one-shot) and all other rows are untouched. -/
def stepOf (ext : Ext) (parent : Parent) (nowMs : Nat) (d : ScheduleRow)
    (r : ScheduleRow) : Option ScheduleRow :=
  match parent d.callback with
  | none => some r
  | some _ =>
    if r.id = d.id then
      match d.type with
      | SchedType.cron => some { r with time := ext.cronNextMs (d.cron.getD ("")) nowMs / 1000 }
      | _ => none
    else some r

/-- Sequential composition of `stepOf` over a list of due rows. -/
def stepsOf (ext : Ext) (parent : Parent) (nowMs : Nat) :
    List ScheduleRow → ScheduleRow → Option ScheduleRow
  | [], r => some r
  | d :: ds, r =>
    match stepOf ext parent nowMs d r with
    | none => none
    | some r1 => stepsOf ext parent nowMs ds r1

/-- A row's stored cron expression parses: `cron` is non-null and
accepted by the cron evaluator.  Rows created by `schedule` with a
cron `when` always satisfy this. -/
def rowCronReady (ext : Ext) (r : ScheduleRow) : Bool :=
  match r.cron with
  | some e => ext.cronOk e
  | none => false

/-- Well-formedness of a table for a wake at `nowMs`: every due row
whose callback resolves and whose kind is `cron` has a parseable
stored expression (so `getNextCronTime` does not throw mid-loop). -/
@[reducible] def WakeWF (ext : Ext) (parent : Parent) (nowMs : Nat) (rows : List ScheduleRow) : Prop :=
  ∀ r ∈ rows, r.time ≤ nowMs / 1000 → (parent r.callback).isSome = true →
    r.type = SchedType.cron → rowCronReady ext r = true

/-- The per-row wake rule: a non-due row is kept unchanged; a due row
with unresolved callback is kept unchanged (skipped); a due resolvable
`cron` row is kept with its `time` advanced; a due resolvable one-shot
row is removed. -/
def wakeStep (ext : Ext) (parent : Parent) (nowMs : Nat) (r : ScheduleRow) : Option ScheduleRow :=
  if r.time ≤ nowMs / 1000 then
    match parent r.callback with
    | none => some r
    | some _ =>
      match r.type with
      | SchedType.cron =>
        match r.cron with
        | some expr => some { r with time := ext.cronNextMs expr nowMs / 1000 }
        | none => some r
      | _ => none
  else some r

theorem stepOf_id (ext : Ext) (parent : Parent) (nowMs : Nat) (d r r1 : ScheduleRow)
    (h : stepOf ext parent nowMs d r = some r1) : r1.id = r.id := by
  unfold stepOf at h
  cases hp : parent d.callback with
  | none =>
    rw [hp] at h
    cases h
    rfl
  | some o =>
    rw [hp] at h
    by_cases hid : r.id = d.id
    · rw [if_pos hid] at h
      cases ht : d.type with
      | cron =>
        rw [ht] at h
        cases h
        rfl
      | scheduled => rw [ht] at h; simp at h
      | delayed => rw [ht] at h; simp at h
    · rw [if_neg hid] at h
      cases h
      rfl

theorem stepOf_nomatch (ext : Ext) (parent : Parent) (nowMs : Nat) (d r : ScheduleRow)
    (h : ¬ (r.id = d.id)) : stepOf ext parent nowMs d r = some r := by
  unfold stepOf
  cases parent d.callback with
  | none => rfl
  | some o => rw [if_neg h]

theorem stepsOf_nomatch (ext : Ext) (parent : Parent) (nowMs : Nat) :
    ∀ (ds : List ScheduleRow) (r : ScheduleRow),
    (∀ d ∈ ds, ¬ (d.id = r.id)) → stepsOf ext parent nowMs ds r = some r := by
  intro ds
  induction ds with
  | nil => intro r _; rfl
  | cons d ds ih =>
    intro r h
    have h1 : ¬ (r.id = d.id) := fun e => h d (List.mem_cons_self d ds) e.symm
    have h2 := ih r (fun d2 hd2 => h d2 (List.mem_cons_of_mem d hd2))
    simp only [stepsOf, stepOf_nomatch ext parent nowMs d r h1]
    exact h2

theorem stepsOf_collapse (ext : Ext) (parent : Parent) (nowMs : Nat) :
    ∀ (ds : List ScheduleRow) (r : ScheduleRow),
    ((ds.map ScheduleRow.id).Nodup) → (∀ d ∈ ds, d.id = r.id → d = r) →
    stepsOf ext parent nowMs ds r =
      if r ∈ ds then stepOf ext parent nowMs r r else some r := by
  intro ds
  induction ds with
  | nil => intro r _ _; simp [stepsOf]
  | cons d ds ih =>
    intro r hnd hinj
    rw [List.map_cons, List.nodup_cons] at hnd
    obtain ⟨hnotin, hndtail⟩ := hnd
    by_cases hid : d.id = r.id
    · have hdr : d = r := hinj d (List.mem_cons_self d ds) hid
      subst hdr
      rw [if_pos (List.mem_cons_self d ds)]
      cases hs : stepOf ext parent nowMs d d with
      | none => simp only [stepsOf, hs]
      | some r1 =>
        have hid1 : r1.id = d.id := stepOf_id ext parent nowMs d d r1 hs
        have hrest : ∀ d2 ∈ ds, ¬ (d2.id = r1.id) := by
          intro d2 hd2 he
          exact hnotin (by rw [← hid1, ← he]; exact List.mem_map_of_mem ScheduleRow.id hd2)
        simp only [stepsOf, hs]
        exact stepsOf_nomatch ext parent nowMs ds r1 hrest
    · have h1 : ¬ (r.id = d.id) := fun e => hid e.symm
      have hne : ¬ (r = d) := fun e => hid (by rw [e])
      have hstep : stepsOf ext parent nowMs (d :: ds) r = stepsOf ext parent nowMs ds r := by
        simp only [stepsOf, stepOf_nomatch ext parent nowMs d r h1]
      rw [hstep, ih r hndtail (fun d2 hd2 he => hinj d2 (List.mem_cons_of_mem d hd2) he)]
      by_cases hm : r ∈ ds
      · rw [if_pos hm, if_pos (List.mem_cons_of_mem d hm)]
      · have hnc : r ∉ d :: ds := by
          intro hc
          rcases List.mem_cons.mp hc with h | h
          · exact hne h
          · exact hm h
        rw [if_neg hm, if_neg hnc]

theorem alarmLoop_eq (ext : Ext) (parent : Parent) (nowMs : Nat) :
    ∀ (due rows : List ScheduleRow),
    (∀ d ∈ due, (parent d.callback).isSome = true → d.type = SchedType.cron →
      rowCronReady ext d = true) →
    alarmLoop ext parent nowMs due rows =
      (rows.filterMap (stepsOf ext parent nowMs due), Except.ok ()) := by
  intro due
  induction due with
  | nil =>
    intro rows _
    have hc : ∀ x ∈ rows, stepsOf ext parent nowMs [] x = some x := fun x _ => rfl
    rw [alarmLoop, List.filterMap_congr hc, List.filterMap_some]
  | cons d rest ih =>
    intro rows hwf
    have hwfrest : ∀ d2 ∈ rest, (parent d2.callback).isSome = true →
        d2.type = SchedType.cron → rowCronReady ext d2 = true :=
      fun d2 h2 => hwf d2 (List.mem_cons_of_mem d h2)
    cases hp : parent d.callback with
    | none =>
      have hstep : ∀ x ∈ rows, stepsOf ext parent nowMs (d :: rest) x =
          stepsOf ext parent nowMs rest x := by
        intro x _
        simp only [stepsOf, stepOf, hp]
      rw [alarmLoop, hp, ih rows hwfrest, List.filterMap_congr hstep]
    | some o =>
      cases ht : d.type with
      | cron =>
        have hready := hwf d (List.mem_cons_self d rest) (by rw [hp]; rfl) ht
        cases hc : d.cron with
        | none =>
          exact absurd hready (by simp [rowCronReady, hc])
        | some e =>
          have hok : ext.cronOk e = true := by simpa [rowCronReady, hc] using hready
          have hcons : consumeRow ext nowMs d rows = Except.ok (rows.map
              (fun r => if r.id = d.id then { r with time := ext.cronNextMs e nowMs / 1000 } else r)) := by
            simp [consumeRow, ht, hc, getNextCronTime, hok]
          simp only [alarmLoop, hp, hcons]
          rw [ih _ hwfrest, List.filterMap_map]
          refine congrArg (fun l => (l, Except.ok ())) ?_
          refine (List.filterMap_congr ?_).symm
          intro x _
          by_cases hid : x.id = d.id
          · simp [Function.comp, stepsOf, stepOf, hp, hid, ht, hc]
          · simp [Function.comp, stepsOf, stepOf, hp, hid, ht, stepOf_nomatch]
      | scheduled =>
        have hcons : consumeRow ext nowMs d rows =
            Except.ok (rows.filter (fun r => r.id ≠ d.id)) := by
          simp [consumeRow, ht]
        simp only [alarmLoop, hp, hcons]
        rw [ih _ hwfrest, List.filterMap_filter]
        refine congrArg (fun l => (l, Except.ok ())) ?_
        refine (List.filterMap_congr ?_).symm
        intro x _
        by_cases hid : x.id = d.id
        · simp [stepsOf, stepOf, hp, hid, ht]
        · simp [stepsOf, stepOf, hp, hid, ht]
      | delayed =>
        have hcons : consumeRow ext nowMs d rows =
            Except.ok (rows.filter (fun r => r.id ≠ d.id)) := by
          simp [consumeRow, ht]
        simp only [alarmLoop, hp, hcons]
        rw [ih _ hwfrest, List.filterMap_filter]
        refine congrArg (fun l => (l, Except.ok ())) ?_
        refine (List.filterMap_congr ?_).symm
        intro x _
        by_cases hid : x.id = d.id
        · simp [stepsOf, stepOf, hp, hid, ht]
        · simp [stepsOf, stepOf, hp, hid, ht]

theorem alarm_ok (ext : Ext) (parent : Parent) (nowMs : Nat) (s : AlarmState)
    (hnd : (s.rows.map ScheduleRow.id).Nodup)
    (hwf : WakeWF ext parent nowMs s.rows) :
    alarm ext parent nowMs s =
      (scheduleNextAlarm (nowMs / 1000)
        { s with rows := s.rows.filterMap (wakeStep ext parent nowMs) }, Except.ok ()) := by
  have hdsub : (s.rows.filter (fun r => r.time ≤ nowMs / 1000)).Sublist s.rows :=
    List.filter_sublist s.rows
  have hwfdue : ∀ d ∈ s.rows.filter (fun r => r.time ≤ nowMs / 1000),
      (parent d.callback).isSome = true → d.type = SchedType.cron →
      rowCronReady ext d = true := by
    intro d hd
    have hmem := List.mem_filter.mp hd
    exact fun h1 h2 => hwf d hmem.1 (by simpa using hmem.2) h1 h2
  have hloop := alarmLoop_eq ext parent nowMs
    (s.rows.filter (fun r => r.time ≤ nowMs / 1000)) s.rows hwfdue
  have hcollapse : ∀ r ∈ s.rows,
      stepsOf ext parent nowMs (s.rows.filter (fun r => r.time ≤ nowMs / 1000)) r
        = wakeStep ext parent nowMs r := by
    intro r hr
    have hnddue : ((s.rows.filter (fun r => r.time ≤ nowMs / 1000)).map ScheduleRow.id).Nodup :=
      List.Nodup.sublist (List.Sublist.map ScheduleRow.id hdsub) hnd
    have hinj : ∀ d ∈ s.rows.filter (fun r => r.time ≤ nowMs / 1000), d.id = r.id → d = r := by
      intro d hd he
      exact List.inj_on_of_nodup_map hnd (List.mem_filter.mp hd).1 hr he
    rw [stepsOf_collapse ext parent nowMs _ r hnddue hinj]
    by_cases hdue : r.time ≤ nowMs / 1000
    · have hmem : r ∈ s.rows.filter (fun r => r.time ≤ nowMs / 1000) :=
        List.mem_filter.mpr ⟨hr, by simpa using hdue⟩
      rw [if_pos hmem]
      unfold stepOf wakeStep
      rw [if_pos hdue]
      cases hp : parent r.callback with
      | none => rfl
      | some o =>
        rw [if_pos rfl]
        cases ht : r.type with
        | cron =>
          cases hc : r.cron with
          | some e => simp
          | none =>
            have hready := hwf r hr hdue (by rw [hp]; rfl) ht
            exact absurd hready (by simp [rowCronReady, hc])
        | scheduled => rfl
        | delayed => rfl
    · have hmem : r ∉ s.rows.filter (fun r => r.time ≤ nowMs / 1000) := by
        intro hcon
        exact hdue (by simpa using (List.mem_filter.mp hcon).2)
      rw [if_neg hmem]
      unfold wakeStep
      rw [if_neg hdue]
  simp only [alarm, hloop]
  rw [List.filterMap_congr hcollapse]

theorem wakeStep_id (ext : Ext) (parent : Parent) (nowMs : Nat) (r r1 : ScheduleRow)
    (h : wakeStep ext parent nowMs r = some r1) : r1.id = r.id := by
  unfold wakeStep at h
  by_cases hdue : r.time ≤ nowMs / 1000
  · rw [if_pos hdue] at h
    cases hp : parent r.callback with
    | none => rw [hp] at h; cases h; rfl
    | some o =>
      rw [hp] at h
      cases ht : r.type with
      | cron =>
        rw [ht] at h
        cases hc : r.cron with
        | some e => rw [hc] at h; cases h; rfl
        | none => rw [hc] at h; cases h; rfl
      | scheduled => rw [ht] at h; simp at h
      | delayed => rw [ht] at h; simp at h
  · rw [if_neg hdue] at h
    cases h
    rfl

theorem filterMap_filter_id_nil (f : ScheduleRow → Option ScheduleRow)
    (hf : ∀ x y, f x = some y → y.id = x.id) :
    ∀ (l : List ScheduleRow) (x : String), (∀ y ∈ l, ¬ (y.id = x)) →
    (l.filterMap f).filter (fun z => z.id = x) = [] := by
  intro l
  induction l with
  | nil => intro x _; rfl
  | cons a t ih =>
    intro x h
    have ha : ¬ (a.id = x) := h a (List.mem_cons_self a t)
    have ht := ih x (fun y hy => h y (List.mem_cons_of_mem a hy))
    cases hfa : f a with
    | none => simpa [List.filterMap_cons, hfa] using ht
    | some b =>
      have hb : ¬ (b.id = x) := by rw [hf a b hfa]; exact ha
      simp [List.filterMap_cons, hfa, List.filter_cons, hb, ht]

theorem filterMap_filter_id_singleton (f : ScheduleRow → Option ScheduleRow)
    (hf : ∀ x y, f x = some y → y.id = x.id) :
    ∀ (l : List ScheduleRow), ((l.map ScheduleRow.id).Nodup) →
    ∀ r ∈ l, (l.filterMap f).filter (fun z => z.id = r.id) = (f r).toList := by
  intro l
  induction l with
  | nil => intro _ r hr; exact absurd hr (List.not_mem_nil r)
  | cons a t ih =>
    intro hnd r hr
    rw [List.map_cons, List.nodup_cons] at hnd
    obtain ⟨hnotin, hndtail⟩ := hnd
    rcases List.mem_cons.mp hr with hra | hrt
    · subst hra
      have htnil : (t.filterMap f).filter (fun z => z.id = r.id) = [] := by
        refine filterMap_filter_id_nil f hf t r.id ?_
        intro y hy he
        exact hnotin (he ▸ List.mem_map_of_mem ScheduleRow.id hy)
      cases hfa : f r with
      | none => simpa [List.filterMap_cons, hfa] using htnil
      | some b =>
        have hb : b.id = r.id := hf r b hfa
        simp [List.filterMap_cons, hfa, List.filter_cons, hb, htnil, Option.toList]
    · have haid : ¬ (a.id = r.id) := by
        intro he
        exact hnotin (he ▸ List.mem_map_of_mem ScheduleRow.id hrt)
      have ht := ih hndtail r hrt
      cases hfa : f a with
      | none => simpa [List.filterMap_cons, hfa] using ht
      | some b =>
        have hb : ¬ (b.id = r.id) := by rw [hf a b hfa]; exact haid
        simp [List.filterMap_cons, hfa, List.filter_cons, hb, ht]

/-- The deadline re-arming contract actually implemented by
`_scheduleNextAlarm`: when some row lies strictly in the future of
`now`, the armed deadline is that minimum (converted to milliseconds);
otherwise the previously armed deadline is left in place. -/
def RearmInvariant (now : Nat) (preAlarm : Option Nat) (post : AlarmState) : Prop :=
  match queryNextDeadline now post.rows with
  | some m => post.alarmMs = some (m * 1000)
  | none => post.alarmMs = preAlarm

theorem scheduleNextAlarm_rearm (now : Nat) (s : AlarmState) :
    RearmInvariant now s.alarmMs (scheduleNextAlarm now s) := by
  unfold RearmInvariant scheduleNextAlarm
  cases h : queryNextDeadline now s.rows with
  | none => simp [h]
  | some m => simp [h]

theorem scheduleNextAlarm_rows (now : Nat) (s : AlarmState) :
    (scheduleNextAlarm now s).rows = s.rows := by
  unfold scheduleNextAlarm
  cases h : queryNextDeadline now s.rows <;> rfl

theorem wakeStep_unresolved (ext : Ext) (parent : Parent) (nowMs : Nat) (r : ScheduleRow)
    (h : parent r.callback = none) : wakeStep ext parent nowMs r = some r := by
  unfold wakeStep
  by_cases hdue : r.time ≤ nowMs / 1000
  · rw [if_pos hdue, h]
  · rw [if_neg hdue]

/-! Concrete instances used in counterexamples and witnesses. -/

/-- Cron evaluator used in concrete runs: it accepts exactly the
every-minute expression and advances to the next minute boundary. -/
def extEx : Ext :=
  { cronOk := fun e => decide (e = "* * * * *"),
    cronNextMs := fun _ t => (t / 60000 + 1) * 60000 }

/-- Owning actor used in concrete runs: `tick` resolves and returns,
`boom` resolves and throws, every other name does not resolve. -/
def parentEx : Parent := fun n =>
  if n = "tick" then some CbOutcome.ok
  else if n = "boom" then some (CbOutcome.throws ("kaboom"))
  else none

/-- One-shot `scheduled` row with the given id, callback name and
fire time. -/
def rowSched (id cb : String) (t : Nat) : ScheduleRow :=
  { id := id, callback := cb, payload := "null", type := SchedType.scheduled,
    time := t, delayInSeconds := none, cron := none, createdAt := 0, identifier := "default" }

/-- One-shot `delayed` row with the given id, callback name and fire
time. -/
def rowDelayed (id cb : String) (t : Nat) : ScheduleRow :=
  { rowSched id cb t with type := SchedType.delayed, delayInSeconds := some 5 }

/-- Recurring `cron` row with the given id, callback name, fire time
and stored expression. -/
def rowCron (id cb : String) (t : Nat) (e : String) : ScheduleRow :=
  { rowSched id cb t with type := SchedType.cron, cron := some e }

/-- State with one future `scheduled` row (fires at 100 s) and the
deadline already armed accordingly at 100000 ms. -/
def sEx1 : AlarmState := AlarmState.mk [rowSched ("a") ("tick") 100] (some 100000)

/-- Claim C1, counterexample: cancelling the only pending row leaves
the table empty, yet the previously armed deadline (100000 ms) stays
armed, because `_scheduleNextAlarm` never clears the host alarm; this
refutes "if the set of rows is empty, no deadline is armed". -/
theorem C1_counterexample :
    (cancelSchedule 50000 ("a") sEx1).1.rows = []
    ∧ (cancelSchedule 50000 ("a") sEx1).1.alarmMs = some 100000 := by
  exact ⟨rfl, rfl⟩

/-- Claim C1 (amended): after a cancel, a successful schedule, or a
completed wake at time `now`, if some row's `time` is strictly greater
than `now` then the armed deadline equals 1000 times the minimum such
`time`; otherwise the deadline is left exactly as it was before the
operation (rows at or before `now` are ignored, and the deadline is
never cleared, not even when the table empties). -/
theorem C1_amended (ext : Ext) (parent : Parent) (nowMs : Nat) (id newId : String)
    (actorName : Option String) (when : When) (callback : CallbackArg) (payload : String)
    (s : AlarmState) :
    RearmInvariant (nowMs / 1000) s.alarmMs (cancelSchedule nowMs id s).1
    ∧ (∀ row : ScheduleRow,
        (schedule ext parent nowMs newId actorName when callback payload s).2 = Except.ok row →
        RearmInvariant (nowMs / 1000) s.alarmMs
          (schedule ext parent nowMs newId actorName when callback payload s).1)
    ∧ ((alarm ext parent nowMs s).2 = Except.ok () →
        RearmInvariant (nowMs / 1000) s.alarmMs (alarm ext parent nowMs s).1) := by
  refine ⟨?_, ?_, ?_⟩
  · exact scheduleNextAlarm_rearm (nowMs / 1000)
      { s with rows := s.rows.filter (fun r => r.id ≠ id) }
  · intro row h
    cases callback with
    | nonString => simp [schedule] at h
    | str cb =>
      cases hp : parent cb with
      | none => simp [schedule, hp] at h
      | some o =>
        cases when with
        | date ms =>
          simp only [schedule, hp]
          exact scheduleNextAlarm_rearm (nowMs / 1000) _
        | num w =>
          simp only [schedule, hp]
          exact scheduleNextAlarm_rearm (nowMs / 1000) _
        | str expr =>
          by_cases hok : ext.cronOk expr = true
          · have hg : getNextCronTime ext expr nowMs = Except.ok (ext.cronNextMs expr nowMs) := by
              simp [getNextCronTime, hok]
            simp only [schedule, hp, hg]
            exact scheduleNextAlarm_rearm (nowMs / 1000) _
          · have hg : getNextCronTime ext expr nowMs =
                Except.error ("Invalid cron expression: " ++ expr) := by
              simp [getNextCronTime, hok]
            simp [schedule, hp, hg] at h
        | other => simp [schedule, hp] at h
  · intro h
    cases hl : alarmLoop ext parent nowMs (s.rows.filter (fun r => r.time ≤ nowMs / 1000)) s.rows with
    | mk rows1 exc =>
      cases exc with
      | ok u =>
        cases u
        simp only [alarm, hl]
        exact scheduleNextAlarm_rearm (nowMs / 1000) _
      | error e =>
        simp only [alarm, hl] at h
        exact Except.noConfusion h

/-- Witness for C1 (amended) at a concrete state: a future row at
100 s, deadline armed at 100000 ms, operations at `Date.now()` =
50000 ms. -/
theorem C1_witness :
    (alarm extEx parentEx 50000 sEx1).2 = Except.ok ()
    ∧ RearmInvariant 50 sEx1.alarmMs (cancelSchedule 50000 ("a") sEx1).1
    ∧ RearmInvariant 50 sEx1.alarmMs
        (schedule extEx parentEx 50000 ("n1") none (When.num 10) (CallbackArg.str ("tick")) ("null") sEx1).1
    ∧ RearmInvariant 50 sEx1.alarmMs (alarm extEx parentEx 50000 sEx1).1 := by
  have h := C1_amended extEx parentEx 50000 ("a") ("n1") none (When.num 10)
    (CallbackArg.str ("tick")) ("null") sEx1
  exact ⟨rfl, h.1, h.2.1 _ rfl, h.2.2 rfl⟩

/-- Claim C2, counterexample: a due `delayed` row whose stored callback
name does not resolve is skipped by `continue` and stays in the table
untouched, refuting "a `scheduled` or `delayed` row is deleted". -/
theorem C2_counterexample :
    (alarm extEx parentEx 20000 (AlarmState.mk [rowDelayed ("d1") ("gone") 10] none)).1.rows
      = [rowDelayed ("d1") ("gone") 10]
    ∧ (alarm extEx parentEx 20000 (AlarmState.mk [rowDelayed ("d1") ("gone") 10] none)).2
      = Except.ok () := by
  exact ⟨rfl, rfl⟩

/-- Claim C2 (amended): a row whose stored callback name does not
resolve at wake time is skipped entirely by the wake handler: it is
neither deleted nor advanced and remains in the table unchanged,
whatever its kind. -/
theorem C2_amended (ext : Ext) (parent : Parent) (nowMs : Nat) (s : AlarmState)
    (r : ScheduleRow)
    (hnd : (s.rows.map ScheduleRow.id).Nodup)
    (hwf : WakeWF ext parent nowMs s.rows)
    (hr : r ∈ s.rows) (hcb : parent r.callback = none) :
    (alarm ext parent nowMs s).2 = Except.ok ()
    ∧ r ∈ (alarm ext parent nowMs s).1.rows := by
  rw [alarm_ok ext parent nowMs s hnd hwf]
  refine ⟨rfl, ?_⟩
  show r ∈ (scheduleNextAlarm (nowMs / 1000) _).rows
  rw [scheduleNextAlarm_rows]
  exact List.mem_filterMap.mpr ⟨r, hr, wakeStep_unresolved ext parent nowMs r hcb⟩

/-- Witness for C2 (amended): one due delayed row whose callback name
`gone` does not resolve against `parentEx`. -/
theorem C2_witness :
    ((AlarmState.mk [rowDelayed ("d1") ("gone") 10] none).rows.map ScheduleRow.id).Nodup
    ∧ parentEx ("gone") = none
    ∧ (alarm extEx parentEx 20000 (AlarmState.mk [rowDelayed ("d1") ("gone") 10] none)).2
        = Except.ok ()
    ∧ rowDelayed ("d1") ("gone") 10
        ∈ (alarm extEx parentEx 20000 (AlarmState.mk [rowDelayed ("d1") ("gone") 10] none)).1.rows := by
  have h := C2_amended extEx parentEx 20000 (AlarmState.mk [rowDelayed ("d1") ("gone") 10] none)
    (rowDelayed ("d1") ("gone") 10) (by decide) (by decide) (by decide) (by rfl)
  exact ⟨by decide, rfl, h.1, h.2⟩

/-- Claim C3, counterexample: cancelling an id with no matching row
returns `true`, not `false`: `cancelSchedule` returns `true`
unconditionally. -/
theorem C3_counterexample :
    ¬ ((cancelSchedule 50000 ("x") (AlarmState.mk [] none)).2 = false) := by
  intro h
  simp [cancelSchedule] at h

/-- Claim C3 (amended): `cancel(id)` deletes the row with that id if
present and always returns `true`, even when no such row existed.
Cancelling a non-existent id leaves the rows unchanged, is idempotent,
and leaves the armed deadline unchanged provided the deadline already
equals what `rearm` computes for the current table. -/
theorem C3_amended (nowMs : Nat) (id : String) (s : AlarmState)
    (hno : ∀ r ∈ s.rows, ¬ (r.id = id))
    (hfix : scheduleNextAlarm (nowMs / 1000) s = s) :
    (∀ s0 : AlarmState, (cancelSchedule nowMs id s0).2 = true)
    ∧ (∀ s0 : AlarmState, (cancelSchedule nowMs id s0).1.rows
        = s0.rows.filter (fun r => r.id ≠ id))
    ∧ (cancelSchedule nowMs id s).1 = s
    ∧ cancelSchedule nowMs id (cancelSchedule nowMs id s).1 = cancelSchedule nowMs id s := by
  have h1 : s.rows.filter (fun r => r.id ≠ id) = s.rows :=
    List.filter_eq_self.mpr (fun a ha => by simpa using hno a ha)
  have h3 : (cancelSchedule nowMs id s).1 = s := by
    show scheduleNextAlarm (nowMs / 1000) { s with rows := s.rows.filter (fun r => r.id ≠ id) } = s
    rw [h1]
    exact hfix
  refine ⟨fun s0 => rfl, fun s0 => scheduleNextAlarm_rows (nowMs / 1000) _, h3, ?_⟩
  rw [h3]

/-- Witness for C3 (amended): cancelling the absent id `x` on a state
whose deadline is already correctly armed for its single future row. -/
theorem C3_witness :
    (∀ r ∈ sEx1.rows, ¬ (r.id = "x"))
    ∧ scheduleNextAlarm 50 sEx1 = sEx1
    ∧ (cancelSchedule 50000 ("x") sEx1).2 = true
    ∧ (cancelSchedule 50000 ("x") sEx1).1 = sEx1
    ∧ cancelSchedule 50000 ("x") (cancelSchedule 50000 ("x") sEx1).1
        = cancelSchedule 50000 ("x") sEx1 := by
  have h := C3_amended 50000 ("x") sEx1 (by decide) (by decide)
  exact ⟨by decide, by decide, h.1 sEx1, h.2.2.1, h.2.2.2⟩

/-- Claim C4: the claim matches the code's own documentation
(`@returns The Schedule object or undefined if not found`), but the
code tests `if (!result)` on the array returned by `sql`, which is
always truthy, so the not-found branch is dead and a missing id makes
`getSchedule` throw a `TypeError` while reading
`result[0].payload`; a present id is returned correctly. -/
theorem C4_code_bug :
    getSchedule (AlarmState.mk [] none) ("missing")
      = Except.error ("TypeError: Cannot read properties of undefined (reading payload)")
    ∧ getSchedule sEx1 ("a") = Except.ok (some (rowSched ("a") ("tick") 100))
    ∧ jsArrayFalsy [] = false := by
  exact ⟨rfl, rfl, rfl⟩

/-- State with one due `cron` row, used for the C5 witness. -/
def sCron : AlarmState := AlarmState.mk [rowCron ("c1") ("tick") 60 ("* * * * *")] none

/-- Claim C5: a `cron` row dispatched by a wake at time t is still
present afterward (the row count for its id is exactly 1, it is never
deleted by the wake handler) and its post-dispatch `time` is strictly
greater than t, assuming the cron evaluator's strict-future contract
for the stored expression (`getNextDate` returns an occurrence after
`Date.now()`). -/
theorem C5_cron_monotonicity (ext : Ext) (parent : Parent) (nowMs : Nat) (s : AlarmState)
    (r : ScheduleRow) (e : String)
    (hnd : (s.rows.map ScheduleRow.id).Nodup)
    (hwf : WakeWF ext parent nowMs s.rows)
    (hr : r ∈ s.rows) (ht : r.type = SchedType.cron) (hc : r.cron = some e)
    (hdue : r.time ≤ nowMs / 1000) (hcb : (parent r.callback).isSome = true)
    (hmono : nowMs / 1000 < ext.cronNextMs e nowMs / 1000) :
    ((alarm ext parent nowMs s).1.rows.filter (fun z => z.id = r.id)).length = 1
    ∧ (∀ z ∈ (alarm ext parent nowMs s).1.rows, z.id = r.id → nowMs / 1000 < z.time) := by
  have hpost : (alarm ext parent nowMs s).1.rows
      = s.rows.filterMap (wakeStep ext parent nowMs) := by
    rw [alarm_ok ext parent nowMs s hnd hwf]
    exact scheduleNextAlarm_rows _ _
  have hstep : wakeStep ext parent nowMs r
      = some { r with time := ext.cronNextMs e nowMs / 1000 } := by
    cases hp : parent r.callback with
    | none => rw [hp] at hcb; simp at hcb
    | some o => simp [wakeStep, hdue, hp, ht, hc]
  have hsingle := filterMap_filter_id_singleton (wakeStep ext parent nowMs)
    (fun x y h => wakeStep_id ext parent nowMs x y h) s.rows hnd r hr
  rw [hstep] at hsingle
  constructor
  · rw [hpost, hsingle]
    rfl
  · intro z hz hzid
    rw [hpost] at hz
    have hzf : z ∈ (s.rows.filterMap (wakeStep ext parent nowMs)).filter
        (fun w => w.id = r.id) :=
      List.mem_filter.mpr ⟨hz, by simpa using hzid⟩
    rw [hsingle] at hzf
    have hz2 : z = { r with time := ext.cronNextMs e nowMs / 1000 } := by
      simpa using hzf
    rw [hz2]
    exact hmono

/-- Witness for C5: a due cron row ticking every minute, wake at
`Date.now()` = 90000 ms (t = 90 s); the next occurrence is the minute
boundary 120 s. -/
theorem C5_witness :
    (rowCron ("c1") ("tick") 60 ("* * * * *")).time ≤ 90000 / 1000
    ∧ (parentEx ((rowCron ("c1") ("tick") 60 ("* * * * *")).callback)).isSome = true
    ∧ 90000 / 1000 < extEx.cronNextMs ("* * * * *") 90000 / 1000
    ∧ ((alarm extEx parentEx 90000 sCron).1.rows.filter
        (fun z => z.id = (rowCron ("c1") ("tick") 60 ("* * * * *")).id)).length = 1
    ∧ (∀ z ∈ (alarm extEx parentEx 90000 sCron).1.rows,
        z.id = (rowCron ("c1") ("tick") 60 ("* * * * *")).id → 90000 / 1000 < z.time) := by
  have h := C5_cron_monotonicity extEx parentEx 90000 sCron
    (rowCron ("c1") ("tick") 60 ("* * * * *")) ("* * * * *")
    (by decide) (by decide) (by decide) (by rfl) (by rfl) (by decide) (by decide) (by decide)
  exact ⟨by decide, by decide, by decide, h.1, h.2⟩

/-- Claim C6, counterexample: with a single due `scheduled` row whose
callback name does not resolve, a wake at t = 20 consumes nothing: the
due row is still present unchanged, refuting "the wake handler
dispatches exactly the rows with `time <= t` (all of them) and
consumes each per its kind". -/
theorem C6_counterexample :
    (alarm extEx parentEx 20000 (AlarmState.mk [rowSched ("s1") ("gone") 10] none)).1.rows
      = [rowSched ("s1") ("gone") 10] := by
  exact rfl

/-- Claim C6 (amended): a wake at time t completes normally and
rewrites the table row-by-row by the rule `wakeStep`: exactly the due
rows (`time ≤ t`) whose callback resolves are consumed per their kind
(one-shot removed, cron advanced); due rows with unresolved callbacks
are skipped and left unchanged; every row with `time > t` is left
completely unchanged. -/
theorem C6_amended (ext : Ext) (parent : Parent) (nowMs : Nat) (s : AlarmState)
    (hnd : (s.rows.map ScheduleRow.id).Nodup)
    (hwf : WakeWF ext parent nowMs s.rows) :
    (alarm ext parent nowMs s).2 = Except.ok ()
    ∧ (alarm ext parent nowMs s).1.rows = s.rows.filterMap (wakeStep ext parent nowMs)
    ∧ (∀ r ∈ s.rows, nowMs / 1000 < r.time → r ∈ (alarm ext parent nowMs s).1.rows) := by
  have hpost : (alarm ext parent nowMs s).1.rows
      = s.rows.filterMap (wakeStep ext parent nowMs) := by
    rw [alarm_ok ext parent nowMs s hnd hwf]
    exact scheduleNextAlarm_rows _ _
  have hok : (alarm ext parent nowMs s).2 = Except.ok () := by
    rw [alarm_ok ext parent nowMs s hnd hwf]
  refine ⟨hok, hpost, ?_⟩
  intro r hr hfut
  rw [hpost]
  refine List.mem_filterMap.mpr ⟨r, hr, ?_⟩
  unfold wakeStep
  rw [if_neg (by omega : ¬ (r.time ≤ nowMs / 1000))]

/-- Mixed state for the C6 witness: two due resolvable rows (one-shot
and cron), one due row with unresolved callback, one future row. -/
def sMix : AlarmState := AlarmState.mk
  [rowSched ("s1") ("tick") 10, rowCron ("c1") ("tick") 60 ("* * * * *"),
   rowSched ("u1") ("gone") 20, rowSched ("f1") ("tick") 1000] none

/-- Witness for C6 (amended) on the mixed state at t = 90 s. -/
theorem C6_witness :
    ((sMix.rows.map ScheduleRow.id).Nodup)
    ∧ WakeWF extEx parentEx 90000 sMix.rows
    ∧ (alarm extEx parentEx 90000 sMix).2 = Except.ok ()
    ∧ (alarm extEx parentEx 90000 sMix).1.rows
        = sMix.rows.filterMap (wakeStep extEx parentEx 90000)
    ∧ rowSched ("f1") ("tick") 1000 ∈ (alarm extEx parentEx 90000 sMix).1.rows := by
  have h := C6_amended extEx parentEx 90000 sMix (by decide) (by decide)
  exact ⟨by decide, by decide, h.1, h.2.1,
    h.2.2 (rowSched ("f1") ("tick") 1000) (by decide) (by decide)⟩

/-- Claim C7: a callback that throws is caught and not propagated out
of the wake handler; every due resolvable row in the batch is still
consumed per its kind (one-shot rows removed — including the throwing
row itself — and cron rows advanced). -/
theorem C7_fault_isolation (ext : Ext) (parent : Parent) (nowMs : Nat) (s : AlarmState)
    (r : ScheduleRow) (m : String)
    (hnd : (s.rows.map ScheduleRow.id).Nodup)
    (hwf : WakeWF ext parent nowMs s.rows)
    (hr : r ∈ s.rows) (ht : ¬ (r.type = SchedType.cron))
    (hdue : r.time ≤ nowMs / 1000)
    (hthrow : parent r.callback = some (CbOutcome.throws m)) :
    (alarm ext parent nowMs s).2 = Except.ok ()
    ∧ (∀ z ∈ (alarm ext parent nowMs s).1.rows, ¬ (z.id = r.id))
    ∧ (∀ r2 ∈ s.rows, r2.time ≤ nowMs / 1000 → (parent r2.callback).isSome = true →
        ¬ (r2.type = SchedType.cron) →
        ∀ z ∈ (alarm ext parent nowMs s).1.rows, ¬ (z.id = r2.id))
    ∧ (∀ r2 ∈ s.rows, ∀ e2 : String, r2.time ≤ nowMs / 1000 →
        (parent r2.callback).isSome = true → r2.type = SchedType.cron → r2.cron = some e2 →
        { r2 with time := ext.cronNextMs e2 nowMs / 1000 }
          ∈ (alarm ext parent nowMs s).1.rows) := by
  have hpost : (alarm ext parent nowMs s).1.rows
      = s.rows.filterMap (wakeStep ext parent nowMs) := by
    rw [alarm_ok ext parent nowMs s hnd hwf]
    exact scheduleNextAlarm_rows _ _
  have hok : (alarm ext parent nowMs s).2 = Except.ok () := by
    rw [alarm_ok ext parent nowMs s hnd hwf]
  have honeshot : ∀ r2 ∈ s.rows, r2.time ≤ nowMs / 1000 → (parent r2.callback).isSome = true →
      ¬ (r2.type = SchedType.cron) →
      ∀ z ∈ (alarm ext parent nowMs s).1.rows, ¬ (z.id = r2.id) := by
    intro r2 hr2 hdue2 hsome2 hncron z hz hzid
    have hstep : wakeStep ext parent nowMs r2 = none := by
      cases hp : parent r2.callback with
      | none => rw [hp] at hsome2; simp at hsome2
      | some o =>
        cases ht2 : r2.type with
        | cron => exact absurd ht2 hncron
        | scheduled => simp [wakeStep, hdue2, hp, ht2]
        | delayed => simp [wakeStep, hdue2, hp, ht2]
    have hsingle := filterMap_filter_id_singleton (wakeStep ext parent nowMs)
      (fun x y h => wakeStep_id ext parent nowMs x y h) s.rows hnd r2 hr2
    rw [hstep] at hsingle
    rw [hpost] at hz
    have hzf : z ∈ (s.rows.filterMap (wakeStep ext parent nowMs)).filter
        (fun w => w.id = r2.id) :=
      List.mem_filter.mpr ⟨hz, by simpa using hzid⟩
    rw [hsingle] at hzf
    simp at hzf
  refine ⟨hok, ?_, honeshot, ?_⟩
  · intro z hz
    exact honeshot r hr hdue (by rw [hthrow]; rfl) ht z hz
  · intro r2 hr2 e2 hdue2 hsome2 ht2 hc2
    have hstep : wakeStep ext parent nowMs r2
        = some { r2 with time := ext.cronNextMs e2 nowMs / 1000 } := by
      cases hp : parent r2.callback with
      | none => rw [hp] at hsome2; simp at hsome2
      | some o => simp [wakeStep, hdue2, hp, ht2, hc2]
    rw [hpost]
    exact List.mem_filterMap.mpr ⟨r2, hr2, hstep⟩

/-- State for the C7 witness: a due one-shot row whose callback throws,
followed by a due one-shot row and a due cron row that succeed. -/
def sBoom : AlarmState := AlarmState.mk
  [rowSched ("b1") ("boom") 10, rowSched ("s2") ("tick") 20,
   rowCron ("c2") ("tick") 30 ("* * * * *")] none

/-- Witness for C7: the `boom` callback throws, the wake still
completes and the throwing row is gone afterward. -/
theorem C7_witness :
    parentEx ("boom") = some (CbOutcome.throws ("kaboom"))
    ∧ (alarm extEx parentEx 90000 sBoom).2 = Except.ok ()
    ∧ (∀ z ∈ (alarm extEx parentEx 90000 sBoom).1.rows,
        ¬ (z.id = (rowSched ("b1") ("boom") 10).id)) := by
  have h := C7_fault_isolation extEx parentEx 90000 sBoom (rowSched ("b1") ("boom") 10)
    ("kaboom") (by decide) (by decide) (by decide) (by decide) (by decide) (by rfl)
  exact ⟨rfl, h.1, h.2.1⟩

/-- Claim C8: schedule-time validation failures — non-string callback
name, unresolvable callback name, unrecognised `when` shape — raise a
validation error and perform no storage mutation: the returned state is
exactly the input state (table and armed deadline unchanged). -/
theorem C8_validation (ext : Ext) (parent : Parent) (nowMs : Nat) (newId : String)
    (actorName : Option String) (payload : String) (s : AlarmState) :
    (∀ when : When,
      schedule ext parent nowMs newId actorName when CallbackArg.nonString payload s
        = (s, Except.error ("Callback must be a string")))
    ∧ (∀ (cb : String) (when : When), parent cb = none →
        schedule ext parent nowMs newId actorName when (CallbackArg.str cb) payload s
          = (s, Except.error ("this.parent." ++ cb ++ " is not a function")))
    ∧ (∀ (cb : String) (o : CbOutcome), parent cb = some o →
        schedule ext parent nowMs newId actorName When.other (CallbackArg.str cb) payload s
          = (s, Except.error ("Invalid schedule type"))) := by
  refine ⟨fun w => rfl, ?_, ?_⟩
  · intro cb w h
    simp [schedule, h]
  · intro cb o h
    simp [schedule, h]

/-- Witness for C8: all three validation failures at a concrete state,
each leaving the state untouched. -/
theorem C8_witness :
    parentEx ("gone") = none
    ∧ parentEx ("tick") = some CbOutcome.ok
    ∧ schedule extEx parentEx 50000 ("n1") none (When.num 10) CallbackArg.nonString ("null") sEx1
        = (sEx1, Except.error ("Callback must be a string"))
    ∧ schedule extEx parentEx 50000 ("n1") none (When.num 10) (CallbackArg.str ("gone")) ("null") sEx1
        = (sEx1, Except.error ("this.parent.gone is not a function"))
    ∧ schedule extEx parentEx 50000 ("n1") none When.other (CallbackArg.str ("tick")) ("null") sEx1
        = (sEx1, Except.error ("Invalid schedule type")) := by
  have h := C8_validation extEx parentEx 50000 ("n1") none ("null") sEx1
  exact ⟨rfl, rfl, h.1 (When.num 10), h.2.1 ("gone") (When.num 10) rfl,
    h.2.2 ("tick") CbOutcome.ok rfl⟩

/-- Claim C9: during bootstrap on a legacy table without the
`identifier` column, the probe-then-alter migration adds the column
with default sentinel `'default'`; an `ALTER` failure is caught and
logged but never propagated, so initialization completes for every
outcome of the `ALTER` statement. -/
theorem C9_migration :
    ensureSchema false (SchemaState.mk true none)
      = Except.ok (SchemaState.mk true (some ("default")))
    ∧ ensureSchema true (SchemaState.mk true none)
      = Except.ok (SchemaState.mk true none)
    ∧ ensureSchema false (SchemaState.mk false none)
      = Except.ok (SchemaState.mk true (some ("default")))
    ∧ ensureSchema true (SchemaState.mk false none)
      = Except.ok (SchemaState.mk true none)
    ∧ (∀ (b : Bool) (sch : SchemaState), ∃ sch2 : SchemaState,
        ensureSchema b sch = Except.ok sch2 ∧ sch2.tableExists = true) := by
  refine ⟨rfl, rfl, rfl, rfl, ?_⟩
  intro b sch
  cases sch with
  | mk te col => cases b <;> cases te <;> cases col <;> exact ⟨_, rfl, rfl⟩

/-- Claim C10: when the callback checks pass but the string `when` is
rejected by the cron parser, `schedule` raises the parser's error
before any storage statement: no row is inserted and the armed deadline
is unchanged (the returned state is exactly the input state). -/
theorem C10_cron_parse_failure (ext : Ext) (parent : Parent) (nowMs : Nat) (newId : String)
    (actorName : Option String) (payload : String) (s : AlarmState)
    (cb expr : String) (o : CbOutcome)
    (hcb : parent cb = some o) (hbad : ext.cronOk expr = false) :
    schedule ext parent nowMs newId actorName (When.str expr) (CallbackArg.str cb) payload s
      = (s, Except.error ("Invalid cron expression: " ++ expr)) := by
  simp [schedule, hcb, getNextCronTime, hbad]

/-- Witness for C10: `bogus` is rejected by the concrete cron
evaluator; scheduling it fails and leaves the state untouched. -/
theorem C10_witness :
    parentEx ("tick") = some CbOutcome.ok
    ∧ extEx.cronOk ("bogus") = false
    ∧ schedule extEx parentEx 50000 ("n1") none (When.str ("bogus"))
        (CallbackArg.str ("tick")) ("null") sEx1
        = (sEx1, Except.error ("Invalid cron expression: bogus")) := by
  have h := C10_cron_parse_failure extEx parentEx 50000 ("n1") none ("null") sEx1
    ("tick") ("bogus") CbOutcome.ok rfl (by decide)
  exact ⟨rfl, by decide, h⟩

end ActorAlarms
